import Mathlib

/-!
Verification of the incremental product-collection core of
`product_scraper.py` (login-result classification, table-row extraction,
and the infinite-scroll collection loop), via a shallow embedding of the
Python source into Lean.
-/

set_option maxHeartbeats 1000000

namespace Scraper

/-- Embedding of Python `str.strip()`: drop leading and trailing
whitespace characters. -/
def strip (s : String) : String :=
  ⟨((s.data.dropWhile Char.isWhitespace).reverse.dropWhile Char.isWhitespace).reverse⟩

/-- Embedding of the synthesized positional header `f"Column_{i}"`
(the source writes `Column_{i+1}` for cell index `i`). -/
def colName (i : Nat) : String := "Column_" ++ Nat.repr i

/-- A table row as built by `extract_table_rows_from_page`: a Python dict
from column name to cell text, embedded as an association list in
insertion order with unique keys. -/
abbrev Row : Type := List (String × String)

/-- Embedding of a Python dict assignment `d[k] = v`: replace the value at
an existing key in place, else append the new pair at the end. -/
def dictInsert (d : Row) (k v : String) : Row :=
  match d with
  | [] => [(k, v)]
  | p :: rest => if p.1 = k then (k, v) :: rest else p :: dictInsert rest k v

/-- Embedding of a Python dict read `d.get(k)`: the value stored at key
`k`, if present. -/
def dictLookup (d : Row) (k : String) : Option String :=
  match d with
  | [] => none
  | p :: rest => if p.1 = k then some p.2 else dictLookup rest k

/-- Lexicographic strict comparison of character lists: the order Python
uses to compare strings. -/
def charsLt : List Char → List Char → Bool
  | [], [] => false
  | [], _ :: _ => true
  | _ :: _, [] => false
  | a :: as, b :: bs => if a < b then true else if b < a then false else charsLt as bs

theorem charsLt_irrefl (as : List Char) : charsLt as as = false := by
  induction as with
  | nil => rfl
  | cons a as ih => simp [charsLt, ih]

theorem charsLt_trans :
    ∀ as bs cs : List Char, charsLt as bs = true → charsLt bs cs = true →
      charsLt as cs = true := by
  intro as
  induction as with
  | nil =>
    intro bs cs h1 h2
    cases bs with
    | nil => exact h2
    | cons b bs =>
      cases cs with
      | nil => simp [charsLt] at h2
      | cons c cs => rfl
  | cons a as ih =>
    intro bs cs h1 h2
    cases bs with
    | nil => simp [charsLt] at h1
    | cons b bs =>
      cases cs with
      | nil => simp [charsLt] at h2
      | cons c cs =>
        simp only [charsLt] at h1 h2 ⊢
        rcases lt_trichotomy a b with hab | hab | hab
        · rcases lt_trichotomy b c with hbc | hbc | hbc
          · simp [lt_trans hab hbc]
          · simp [hbc ▸ hab]
          · rw [if_pos hab] at h1
            rw [if_neg (lt_asymm hbc), if_pos hbc] at h2
            exact absurd h2 (by simp)
        · subst hab
          rw [if_neg (lt_irrefl a), if_neg (lt_irrefl a)] at h1
          rcases lt_trichotomy a c with hac | hac | hac
          · simp [hac]
          · subst hac
            rw [if_neg (lt_irrefl a), if_neg (lt_irrefl a)] at h2 ⊢
            exact ih bs cs h1 h2
          · rw [if_neg (lt_asymm hac), if_pos hac] at h2
            exact absurd h2 (by simp)
        · rw [if_neg (lt_asymm hab), if_pos hab] at h1
          exact absurd h1 (by simp)

theorem charsLt_conn :
    ∀ as bs : List Char, charsLt as bs = false → charsLt bs as = false → as = bs := by
  intro as
  induction as with
  | nil =>
    intro bs h1 _
    cases bs with
    | nil => rfl
    | cons b bs => simp [charsLt] at h1
  | cons a as ih =>
    intro bs h1 h2
    cases bs with
    | nil => simp [charsLt] at h2
    | cons b bs =>
      simp only [charsLt] at h1 h2
      rcases lt_trichotomy a b with hab | hab | hab
      · rw [if_pos hab] at h1
        exact absurd h1 (by simp)
      · subst hab
        rw [if_neg (lt_irrefl a), if_neg (lt_irrefl a)] at h1 h2
        rw [ih bs h1 h2]
      · rw [if_pos hab] at h2
        exact absurd h2 (by simp)

theorem charsLt_asymm (as bs : List Char) (h : charsLt as bs = true) :
    charsLt bs as = false := by
  by_contra hc
  have h2 : charsLt bs as = true := by
    cases hcc : charsLt bs as
    · exact absurd hcc hc
    · rfl
  have := charsLt_trans as bs as h h2
  rw [charsLt_irrefl] at this
  exact absurd this (by simp)

/-- Strict string comparison `s < t` as Python evaluates it. -/
def strLt (s t : String) : Prop := charsLt s.data t.data = true

instance : DecidableRel strLt := fun s t =>
  inferInstanceAs (Decidable (charsLt s.data t.data = true))

theorem strExt {s t : String} (h : s.data = t.data) : s = t := by
  cases s
  cases t
  exact congrArg String.mk h

/-- The ordering Python `sorted` uses on `(key, value)` string pairs:
lexicographic comparison, first on the key, then on the value. -/
def pairLe (p q : String × String) : Prop :=
  strLt p.1 q.1 ∨ (p.1 = q.1 ∧ (strLt p.2 q.2 ∨ p.2 = q.2))

instance : DecidableRel pairLe := fun p q => by
  unfold pairLe
  exact inferInstance

theorem strLt_or (s t : String) :
    strLt s t ∨ s = t ∨ strLt t s := by
  unfold strLt
  cases h1 : charsLt s.data t.data
  · cases h2 : charsLt t.data s.data
    · exact Or.inr (Or.inl (strExt (charsLt_conn _ _ h1 h2)))
    · exact Or.inr (Or.inr rfl)
  · exact Or.inl rfl

theorem strLt_asymm' {s t : String} (h1 : strLt s t) (h2 : strLt t s) : False := by
  unfold strLt at h1 h2
  rw [charsLt_asymm _ _ h1] at h2
  exact absurd h2 (by simp)

theorem strLt_irrefl' {s : String} (h : strLt s s) : False := by
  unfold strLt at h
  rw [charsLt_irrefl] at h
  exact absurd h (by simp)

theorem strLt_trans' {s t u : String} (h1 : strLt s t) (h2 : strLt t u) :
    strLt s u :=
  charsLt_trans _ _ _ h1 h2

instance : IsTotal (String × String) pairLe := by
  constructor
  intro a b
  rcases strLt_or a.1 b.1 with h | h | h
  · exact Or.inl (Or.inl h)
  · rcases strLt_or a.2 b.2 with h2 | h2 | h2
    · exact Or.inl (Or.inr ⟨h, Or.inl h2⟩)
    · exact Or.inl (Or.inr ⟨h, Or.inr h2⟩)
    · exact Or.inr (Or.inr ⟨h.symm, Or.inl h2⟩)
  · exact Or.inr (Or.inl h)

instance : IsTrans (String × String) pairLe := by
  constructor
  intro a b c hab hbc
  rcases hab with h1 | ⟨e1, h1⟩
  · rcases hbc with h2 | ⟨e2, _⟩
    · exact Or.inl (strLt_trans' h1 h2)
    · exact Or.inl (e2 ▸ h1)
  · rcases hbc with h2 | ⟨e2, h2⟩
    · exact Or.inl (e1 ▸ h2)
    · refine Or.inr ⟨e1.trans e2, ?_⟩
      rcases h1 with h1 | h1
      · rcases h2 with h2 | h2
        · exact Or.inl (strLt_trans' h1 h2)
        · exact Or.inl (h2 ▸ h1)
      · rcases h2 with h2 | h2
        · exact Or.inl (h1 ▸ h2)
        · exact Or.inr (h1.trans h2)

instance : IsAntisymm (String × String) pairLe := by
  constructor
  intro a b hab hba
  rcases hab with h1 | ⟨e1, h1⟩
  · rcases hba with h2 | ⟨e2, _⟩
    · exact absurd (strLt_asymm' h1 h2) (fun h => h)
    · exact absurd (strLt_irrefl' (e2 ▸ h1)) (fun h => h)
  · rcases hba with h2 | ⟨e2, h2⟩
    · exact absurd (strLt_irrefl' (e1 ▸ h2)) (fun h => h)
    · have e3 : a.2 = b.2 := by
        rcases h1 with h1 | h1
        · rcases h2 with h2 | h2
          · exact absurd (strLt_asymm' h1 h2) (fun h => h)
          · exact h2.symm
        · exact h1
      exact Prod.ext e1 e3

/-- Rendering of one `(key, value)` pair inside `str(sorted(row.items()))`
(string quotes omitted; the rendering is only ever compared for equality). -/
def pairStr (p : String × String) : String := "(" ++ p.1 ++ ", " ++ p.2 ++ ")"

/-- Comma-separated rendering of a list of pairs. -/
def joinPairs : List (String × String) → String
  | [] => ""
  | [p] => pairStr p
  | p :: q :: rest => pairStr p ++ ", " ++ joinPairs (q :: rest)

/-- Embedding of the dedup key `str(sorted(row.items()))` computed in
`collect_all_products`: sort the `(column, value)` pairs and render them. -/
def row_hash (r : Row) : String :=
  "[" ++ joinPairs (List.insertionSort pairLe r) ++ "]"

/-- The DOM table as seen by `extract_table_rows_from_page`:
`headerCells` is the text of the `thead th, th` cells, `rows` is, for each
`tr` element matched by `tbody tr, tr`, the list of texts of its `td`
cells (a header-only `tr` appears as an empty list). -/
structure TableModel where
  headerCells : List String
  rows : List (List String)

/-- The header chosen for cell index `i`:
`headers[i] if i < len(headers) else f"Column_{i+1}"`. -/
def hname (headers : List String) (i : Nat) : String :=
  headers.getD i (colName (i + 1))

/-- Building `row_data` for one body row: for each cell index `i`,
`row_data[header] = cell.inner_text().strip()`. -/
def rowData (headers : List String) (cells : List String) : Row :=
  cells.enum.foldl (fun d ic => dictInsert d (hname headers ic.1) (strip ic.2)) []

/-- Header synthesis when no explicit header cell is found: positional
names sized to the cell count of the first row returned by the
`tbody tr, tr` query. -/
def inferHeaders (rows : List (List String)) : List String :=
  match rows.head? with
  | some fr => (List.range fr.length).map (fun i => colName (i + 1))
  | none => []

/-- Embedding of `extract_table_rows_from_page`. `none` models a page on
which no `table, [role=table]` element appears within the discovery
timeout (the `PlaywrightTimeoutError` branch, which returns the empty
list). -/
def extract_table_rows_from_page (page : Option TableModel) : List Row :=
  match page with
  | none => []
  | some t =>
    let headers0 := (t.headerCells.map strip).filter (fun h => !(h == ""))
    let headers := if headers0.isEmpty then inferHeaders t.rows else headers0
    (t.rows.filter (fun cells => !cells.isEmpty)).map (rowData headers)

/-- The environment the collection loop observes through the browser:
the rows returned by each call to `extract_table_rows_from_page`
(initial, at the every-3rd-scroll check indexed by the pre-increment
`scroll_attempts`, and final), whether the completion text
("0 remaining" / "all products loaded") is present at the every-15th
check indexed by the post-increment `scroll_attempts`, whether the
`.infinite-table` container was found, and its scroll metrics at each
every-15th check. -/
structure ScrapeEnv where
  extractInit : List Row
  extractAt : Nat → List Row
  textDone : Nat → Bool
  container : Bool
  scrollHeight : Nat → Int
  scrollTop : Nat → Int
  extractFinal : List Row

/-- The mutable state of `collect_all_products`: `all_rows`, the `seen`
hash set (as the list of inserted hashes), `scroll_attempts`,
`no_new_data_count`, and whether the `break` at the bottom of the loop
fired. -/
structure CState where
  all_rows : List Row
  seen : List String
  scroll_attempts : Nat
  no_new_data_count : Nat
  broke : Bool

/-- Constant `max_scroll_attempts = 500`, the high safety limit. -/
def max_scroll_attempts : Nat := 500

/-- Constant `max_no_new_data = 5`, the empty-round threshold. -/
def max_no_new_data : Nat := 5

/-- Merging one extracted row: `if row_hash not in seen: seen.add(...);
all_rows.append(row)`. -/
def mergeRow (s : CState) (r : Row) : CState :=
  if row_hash r ∈ s.seen then s
  else ⟨s.all_rows ++ [r], row_hash r :: s.seen, s.scroll_attempts,
        s.no_new_data_count, s.broke⟩

/-- Merging every row of one extraction pass, in order. -/
def mergeList (s : CState) (rs : List Row) : CState := rs.foldl mergeRow s

/-- First part of a loop iteration: on every 3rd attempt
(`scroll_attempts % 3 == 0`, checked before the increment) extract and
merge, resetting `no_new_data_count` when rows were appended and
incrementing it otherwise. -/
def stepExtract (env : ScrapeEnv) (s : CState) : CState :=
  if s.scroll_attempts % 3 = 0 then
    if s.all_rows.length <
        (mergeList s (env.extractAt s.scroll_attempts)).all_rows.length then
      ⟨(mergeList s (env.extractAt s.scroll_attempts)).all_rows,
       (mergeList s (env.extractAt s.scroll_attempts)).seen,
       s.scroll_attempts, 0, s.broke⟩
    else
      ⟨(mergeList s (env.extractAt s.scroll_attempts)).all_rows,
       (mergeList s (env.extractAt s.scroll_attempts)).seen,
       s.scroll_attempts, s.no_new_data_count + 1, s.broke⟩
  else s

/-- The increment `scroll_attempts += 1`. -/
def stepIncr (s : CState) : CState :=
  ⟨s.all_rows, s.seen, s.scroll_attempts + 1, s.no_new_data_count, s.broke⟩

/-- The every-15th-attempt completion check (on the post-increment
`scroll_attempts`): completion text sets `no_new_data_count` to
`max_no_new_data`; a scroll container whose extent stopped growing
relative to the scroll position (within slack 100) increments it by 1. -/
def stepComplete (env : ScrapeEnv) (s : CState) : CState :=
  if s.scroll_attempts % 15 = 0 then
    let c1 := if env.textDone s.scroll_attempts then max_no_new_data
              else s.no_new_data_count
    let c2 :=
      if env.container ∧ 0 < env.scrollTop s.scroll_attempts ∧
          env.scrollHeight s.scroll_attempts - env.scrollTop s.scroll_attempts < 100
      then c1 + 1 else c1
    ⟨s.all_rows, s.seen, s.scroll_attempts, c2, s.broke⟩
  else s

/-- The early break `if no_new_data_count >= 2 and scroll_attempts > 50`. -/
def stepBreak (s : CState) : CState :=
  if 2 ≤ s.no_new_data_count ∧ 50 < s.scroll_attempts then
    ⟨s.all_rows, s.seen, s.scroll_attempts, s.no_new_data_count, true⟩
  else s

/-- One iteration of the `while` loop of `collect_all_products`:
scroll (no state effect), the every-3rd-attempt extraction and merge,
the `scroll_attempts` increment, the every-15th-attempt completion
checks, and the early `break` test. -/
def step (env : ScrapeEnv) (s : CState) : CState :=
  stepBreak (stepComplete env (stepIncr (stepExtract env s)))

/-- The `while scroll_attempts < max_scroll_attempts and
no_new_data_count < max_no_new_data` loop, fuelled: each iteration
increments `scroll_attempts` by one, so fuel `max_scroll_attempts`
suffices to reach the exit. -/
def loopRun (env : ScrapeEnv) : Nat → CState → CState
  | 0, s => s
  | f + 1, s =>
    if s.broke then s
    else if s.scroll_attempts < max_scroll_attempts ∧
        s.no_new_data_count < max_no_new_data then
      loopRun env f (step env s)
    else s

/-- Full state-level embedding of `collect_all_products`: initial
extraction and merge, the scroll loop, and the final comprehensive
extraction pass. -/
def collectFinal (env : ScrapeEnv) : CState :=
  let s0 : CState := ⟨[], [], 0, 0, false⟩
  let s1 := mergeList s0 env.extractInit
  let s2 := loopRun env max_scroll_attempts s1
  mergeList s2 env.extractFinal

/-- Embedding of `collect_all_products` proper: the function returns
`all_rows`. -/
def collect_all_products (env : ScrapeEnv) : List Row :=
  (collectFinal env).all_rows

/-- What the login-result poll observes at each one-second tick: the
current page URL, and whether a success marker respectively an error
marker (`invalid` / `incorrect` / `error` text) is visible. -/
structure LoginEnv where
  url : Nat → String
  successVisible : Nat → Bool
  errorVisible : Nat → Bool

/-- String test `s.endswith(p)`. -/
def strEndsWith (s p : String) : Bool := p.data.isSuffixOf s.data

/-- The polling loop of `wait_for_login_result`: at each tick, success if
the URL changed away from the base URL and is not a login path, success
if a success marker is visible, failure if an error marker is visible;
failure on timeout. -/
def waitLoop (env : LoginEnv) (base : String) : Nat → Nat → Bool
  | 0, _ => false
  | f + 1, t =>
    if env.url t ≠ base ∧ ¬ strEndsWith (env.url t) "/login" then true
    else if env.successVisible t then true
    else if env.errorVisible t then false
    else waitLoop env base f (t + 1)

/-- Embedding of `wait_for_login_result` with its default 30-second
window: `True` is the Success outcome, `False` covers both the Failed
and the TimedOut outcome. -/
def wait_for_login_result (env : LoginEnv) (base : String) : Bool :=
  waitLoop env base 30 0

/-- The externally visible phases of `main`, in execution order. -/
inductive Phase
  | login
  | navigation
  | collection
  | export
  deriving DecidableEq

/-- The branch inputs of `main`: whether `is_logged_in` holds on the
initial load, whether `fill_login_and_submit` returns `True`, the page
behaviour seen by the login-result poll, the base URL, and whether
`navigate_to_product_catalog` returns `True`. -/
structure MainEnv where
  loggedIn : Bool
  fillOk : Bool
  login : LoginEnv
  base : String
  navOk : Bool

/-- The tail of `main` from `navigate_to_product_catalog` on. -/
def navSeq (m : MainEnv) : List Phase :=
  Phase.navigation :: (if m.navOk then [Phase.collection, Phase.export] else [])

/-- Embedding of the control flow of `main` as the list of phases that
execute: a failed form fill or a failed login result returns before
`navigate_to_product_catalog` is ever called. -/
def mainPhases (m : MainEnv) : List Phase :=
  if m.loggedIn then navSeq m
  else
    Phase.login ::
      (if m.fillOk = false then []
       else if wait_for_login_result m.login m.base = false then []
       else navSeq m)

/-- The dedup invariant of the collection state: every collected row has
its hash in `seen`, and no two collected rows share a hash. -/
def Inv (s : CState) : Prop :=
  (∀ r ∈ s.all_rows, row_hash r ∈ s.seen) ∧ (s.all_rows.map row_hash).Nodup

/-- The scheduling invariant of the collection loop: before the 15th
attempt the empty-round counter is bounded by the number of extraction
checks that can have run, and the `break` flag implies more than 50
attempts. -/
def InvA (s : CState) : Prop :=
  (s.no_new_data_count ≤ (s.scroll_attempts + 2) / 3 ∨ 15 ≤ s.scroll_attempts) ∧
  (s.broke = true → 51 ≤ s.scroll_attempts)

/-- The table of the specified two-row scenario. -/
def table7 : TableModel :=
  ⟨["Name", "Price"], [["Widget", "9.99"], ["Gadget", "14.50"]]⟩

/-- The rows the extractor reads off `table7`. -/
def rows7 : List Row := extract_table_rows_from_page (some table7)

/-- Environment for the two-row scenario: every extraction pass sees the
same table, no completion text ever appears, no scroll container. -/
def env7 : ScrapeEnv :=
  ⟨rows7, fun _ => rows7, fun _ => false, false, fun _ => 0, fun _ => 0, rows7⟩

/-- A one-row fixed, non-growing data source with no completion signals. -/
def env0 : ScrapeEnv :=
  ⟨[[("a", "b")]], fun _ => [[("a", "b")]], fun _ => false, false,
   fun _ => 0, fun _ => 0, [[("a", "b")]]⟩

/-- A data source that yields one fresh row at each of the first five
extraction checks and nothing afterwards, with a scroll container whose
extent (100) has stopped growing relative to the scroll position (50):
at the 15th attempt the completion check observes the stopped-growing
signal. -/
def env1 : ScrapeEnv :=
  ⟨[], fun n => if n < 15 then [[("k", Nat.repr (n / 3))]] else [],
   fun _ => false, true, fun _ => 100, fun _ => 50, []⟩

/-- A source whose completion text is visible at the 15th attempt. -/
def env2 : ScrapeEnv :=
  ⟨[], fun _ => [], fun n => n = 15, false, fun _ => 0, fun _ => 0, []⟩

/-- A collection state about to run its 15th attempt. -/
def st14 : CState := ⟨[], [], 14, 0, false⟩

/-- Login environment of the failed-login scenario: the URL never leaves
the base URL, no success marker ever shows, the error marker is visible
from the first poll. -/
def loginFail : LoginEnv :=
  ⟨fun _ => "https://app.example.test/", fun _ => false, fun _ => true⟩

/-- Main-flow environment of the failed-login scenario. -/
def mainFail : MainEnv :=
  ⟨false, true, loginFail, "https://app.example.test/", true⟩

/-! Lemmas about merging extracted rows into the collection state. -/

theorem mergeRow_fields (s : CState) (r : Row) :
    (mergeRow s r).scroll_attempts = s.scroll_attempts ∧
    (mergeRow s r).no_new_data_count = s.no_new_data_count ∧
    (mergeRow s r).broke = s.broke := by
  unfold mergeRow
  split <;> exact ⟨rfl, rfl, rfl⟩

theorem mergeList_fields (s : CState) (rs : List Row) :
    (mergeList s rs).scroll_attempts = s.scroll_attempts ∧
    (mergeList s rs).no_new_data_count = s.no_new_data_count ∧
    (mergeList s rs).broke = s.broke := by
  induction rs generalizing s with
  | nil => exact ⟨rfl, rfl, rfl⟩
  | cons r rs ih =>
    have h1 := mergeRow_fields s r
    have h2 := ih (mergeRow s r)
    exact ⟨h2.1.trans h1.1, h2.2.1.trans h1.2.1, h2.2.2.trans h1.2.2⟩

theorem mergeRow_seen_mono (s : CState) (r : Row) :
    s.seen ⊆ (mergeRow s r).seen := by
  unfold mergeRow
  split
  · exact fun x hx => hx
  · exact fun x hx => List.mem_cons_of_mem _ hx

theorem mergeList_seen_mono (s : CState) (rs : List Row) :
    s.seen ⊆ (mergeList s rs).seen := by
  induction rs generalizing s with
  | nil => exact fun x hx => hx
  | cons r rs ih =>
    exact fun x hx => ih (mergeRow s r) (mergeRow_seen_mono s r hx)

theorem mergeRow_seen_self (s : CState) (r : Row) :
    row_hash r ∈ (mergeRow s r).seen := by
  unfold mergeRow
  split
  · assumption
  · exact List.mem_cons_self _ _

theorem mergeList_sat (s : CState) (rs : List Row) :
    ∀ r ∈ rs, row_hash r ∈ (mergeList s rs).seen := by
  induction rs generalizing s with
  | nil => intro r hr; cases hr
  | cons r0 rs ih =>
    intro r hr
    cases hr with
    | head =>
      exact mergeList_seen_mono (mergeRow s r0) rs (mergeRow_seen_self s r0)
    | tail _ hmem => exact ih (mergeRow s r0) r hmem

theorem mergeRow_eq_self (s : CState) (r : Row) (h : row_hash r ∈ s.seen) :
    mergeRow s r = s := by
  unfold mergeRow
  exact if_pos h

theorem mergeList_eq_self (s : CState) (rs : List Row)
    (h : ∀ r ∈ rs, row_hash r ∈ s.seen) : mergeList s rs = s := by
  induction rs with
  | nil => rfl
  | cons r rs ih =>
    show mergeList (mergeRow s r) rs = s
    rw [mergeRow_eq_self s r (h r (List.mem_cons_self _ _))]
    exact ih fun x hx => h x (List.mem_cons_of_mem _ hx)

theorem mergeRow_growth (s : CState) (r : Row) :
    ∃ t, (mergeRow s r).all_rows = s.all_rows ++ t ∧
      ∀ x ∈ t, row_hash x ∉ s.seen := by
  unfold mergeRow
  split
  · exact ⟨[], by simp, by simp⟩
  · refine ⟨[r], rfl, ?_⟩
    intro x hx
    rw [List.mem_singleton] at hx
    subst hx
    assumption

theorem mergeList_growth (s : CState) (rs : List Row) :
    ∃ t, (mergeList s rs).all_rows = s.all_rows ++ t ∧
      ∀ x ∈ t, row_hash x ∉ s.seen := by
  induction rs generalizing s with
  | nil => exact ⟨[], by simp [mergeList], by simp⟩
  | cons r rs ih =>
    obtain ⟨t1, ht1, hn1⟩ := mergeRow_growth s r
    obtain ⟨t2, ht2, hn2⟩ := ih (mergeRow s r)
    refine ⟨t1 ++ t2, ?_, ?_⟩
    · show (mergeList (mergeRow s r) rs).all_rows = _
      rw [ht2, ht1, List.append_assoc]
    · intro x hx
      rcases List.mem_append.mp hx with hx | hx
      · exact hn1 x hx
      · intro hseen
        exact hn2 x hx (mergeRow_seen_mono s r hseen)

theorem mergeRow_inv (s : CState) (r : Row) (h : Inv s) : Inv (mergeRow s r) := by
  unfold mergeRow
  split
  · exact h
  · constructor
    · intro x hx
      rcases List.mem_append.mp hx with hx | hx
      · exact List.mem_cons_of_mem _ (h.1 x hx)
      · rw [List.mem_singleton] at hx
        subst hx
        exact List.mem_cons_self _ _
    · rw [List.map_append, List.map_singleton, List.nodup_append]
      refine ⟨h.2, List.nodup_singleton _, fun a ha hb => ?_⟩
      rw [List.mem_singleton] at hb
      subst hb
      rcases List.mem_map.mp ha with ⟨y, hy, hyh⟩
      exact absurd (hyh ▸ h.1 y hy) (by assumption)

theorem mergeList_inv (s : CState) (rs : List Row) (h : Inv s) :
    Inv (mergeList s rs) := by
  induction rs generalizing s with
  | nil => exact h
  | cons r rs ih => exact ih (mergeRow s r) (mergeRow_inv s r h)

/-! Lemmas about the scroll loop. -/

theorem stepExtract_parts (env : ScrapeEnv) (s : CState) :
    (stepExtract env s).all_rows =
        (mergeList s (env.extractAt s.scroll_attempts)).all_rows ∧
      (stepExtract env s).seen =
        (mergeList s (env.extractAt s.scroll_attempts)).seen ∨
    stepExtract env s = s := by
  unfold stepExtract
  split
  · split
    · exact Or.inl ⟨rfl, rfl⟩
    · exact Or.inl ⟨rfl, rfl⟩
  · exact Or.inr rfl

theorem stepComplete_parts (env : ScrapeEnv) (s : CState) :
    (stepComplete env s).all_rows = s.all_rows ∧
    (stepComplete env s).seen = s.seen ∧
    (stepComplete env s).broke = s.broke := by
  unfold stepComplete
  split
  · exact ⟨rfl, rfl, rfl⟩
  · exact ⟨rfl, rfl, rfl⟩

theorem stepIncr_parts (s : CState) :
    (stepIncr s).all_rows = s.all_rows ∧ (stepIncr s).seen = s.seen := ⟨rfl, rfl⟩

theorem stepBreak_parts (s : CState) :
    (stepBreak s).all_rows = s.all_rows ∧ (stepBreak s).seen = s.seen := by
  unfold stepBreak
  split
  · exact ⟨rfl, rfl⟩
  · exact ⟨rfl, rfl⟩

theorem step_rows_seen (env : ScrapeEnv) (s : CState) :
    (step env s).all_rows = (stepExtract env s).all_rows ∧
    (step env s).seen = (stepExtract env s).seen := by
  unfold step
  rw [(stepBreak_parts _).1, (stepBreak_parts _).2,
    (stepComplete_parts env _).1, (stepComplete_parts env _).2.1]
  exact ⟨rfl, rfl⟩

theorem step_seen_mono (env : ScrapeEnv) (s : CState) :
    s.seen ⊆ (step env s).seen := by
  rw [(step_rows_seen env s).2]
  rcases stepExtract_parts env s with ⟨_, hseen⟩ | heq
  · rw [hseen]
    exact mergeList_seen_mono _ _
  · rw [heq]
    exact fun x hx => hx

theorem step_growth (env : ScrapeEnv) (s : CState) :
    ∃ t, (step env s).all_rows = s.all_rows ++ t ∧
      ∀ x ∈ t, row_hash x ∉ s.seen := by
  rw [(step_rows_seen env s).1]
  rcases stepExtract_parts env s with ⟨hrows, _⟩ | heq
  · rw [hrows]
    exact mergeList_growth _ _
  · rw [heq]
    exact ⟨[], by simp, by simp⟩

theorem step_inv (env : ScrapeEnv) (s : CState) (h : Inv s) : Inv (step env s) := by
  have hm := mergeList_inv s (env.extractAt s.scroll_attempts) h
  constructor
  · rw [(step_rows_seen env s).1, (step_rows_seen env s).2]
    rcases stepExtract_parts env s with ⟨hrows, hseen⟩ | heq
    · rw [hrows, hseen]
      exact hm.1
    · rw [heq]
      exact h.1
  · rw [(step_rows_seen env s).1]
    rcases stepExtract_parts env s with ⟨hrows, _⟩ | heq
    · rw [hrows]
      exact hm.2
    · rw [heq]
      exact h.2

theorem loopRun_growth (env : ScrapeEnv) (f : Nat) (s : CState) :
    ∃ t, (loopRun env f s).all_rows = s.all_rows ++ t ∧
      ∀ x ∈ t, row_hash x ∉ s.seen := by
  induction f generalizing s with
  | zero => exact ⟨[], by simp [loopRun], by simp⟩
  | succ f ih =>
    unfold loopRun
    split
    · exact ⟨[], by simp, by simp⟩
    · split
      · obtain ⟨t1, ht1, hn1⟩ := step_growth env s
        obtain ⟨t2, ht2, hn2⟩ := ih (step env s)
        refine ⟨t1 ++ t2, ?_, ?_⟩
        · rw [ht2, ht1, List.append_assoc]
        · intro x hx
          rcases List.mem_append.mp hx with hx | hx
          · exact hn1 x hx
          · intro hseen
            exact hn2 x hx (step_seen_mono env s hseen)
      · exact ⟨[], by simp, by simp⟩

theorem loopRun_inv (env : ScrapeEnv) (f : Nat) (s : CState) (h : Inv s) :
    Inv (loopRun env f s) := by
  induction f generalizing s with
  | zero => exact h
  | succ f ih =>
    unfold loopRun
    split
    · exact h
    · split
      · exact ih (step env s) (step_inv env s h)
      · exact h

theorem loopRun_exit (env : ScrapeEnv) (f : Nat) (s : CState)
    (h : ¬ s.no_new_data_count < max_no_new_data) : loopRun env f s = s := by
  cases f with
  | zero => rfl
  | succ f =>
    unfold loopRun
    split
    · rfl
    · rw [if_neg]
      intro hc
      exact h hc.2

theorem loopRun_succ (env : ScrapeEnv) (f : Nat) (s : CState)
    (hb : s.broke = false)
    (h1 : s.scroll_attempts < max_scroll_attempts)
    (h2 : s.no_new_data_count < max_no_new_data) :
    loopRun env (f + 1) s = loopRun env f (step env s) := by
  conv_lhs => rw [loopRun]
  rw [if_neg (by rw [hb]; exact Bool.false_ne_true), if_pos ⟨h1, h2⟩]

/-- The saturated step: when every row the page can return is already in
`seen` and the 15th-attempt completion check is not yet reached, one loop
iteration only increments `scroll_attempts` and updates
`no_new_data_count` by the every-3rd-attempt rule. -/
theorem step_saturated (env : ScrapeEnv) (L : List Row)
    (hA : ∀ n, env.extractAt n = L)
    (R : List Row) (S : List String) (a c : Nat)
    (hsat : ∀ r ∈ L, row_hash r ∈ S) (hlt : a + 1 < 15) :
    step env ⟨R, S, a, c, false⟩ =
      ⟨R, S, a + 1, if a % 3 = 0 then c + 1 else c, false⟩ := by
  have hm : mergeList ⟨R, S, a, c, false⟩ L = ⟨R, S, a, c, false⟩ :=
    mergeList_eq_self _ L hsat
  have hx : stepExtract env ⟨R, S, a, c, false⟩ =
      ⟨R, S, a, if a % 3 = 0 then c + 1 else c, false⟩ := by
    unfold stepExtract
    by_cases h3 : a % 3 = 0
    · rw [show (⟨R, S, a, c, false⟩ : CState).scroll_attempts = a from rfl, hA, hm]
      rw [if_pos h3, if_neg (lt_irrefl _), if_pos h3]
    · rw [show (⟨R, S, a, c, false⟩ : CState).scroll_attempts = a from rfl]
      rw [if_neg h3, if_neg h3]
  unfold step
  rw [hx]
  have hi : stepIncr ⟨R, S, a, if a % 3 = 0 then c + 1 else c, false⟩ =
      ⟨R, S, a + 1, if a % 3 = 0 then c + 1 else c, false⟩ := rfl
  rw [hi]
  have hc : stepComplete env ⟨R, S, a + 1, if a % 3 = 0 then c + 1 else c, false⟩ =
      ⟨R, S, a + 1, if a % 3 = 0 then c + 1 else c, false⟩ := by
    unfold stepComplete
    rw [if_neg]
    show ¬ (a + 1) % 15 = 0
    omega
  rw [hc]
  unfold stepBreak
  rw [if_neg]
  intro h
  have : 50 < a + 1 := h.2
  omega

/-- With a constant extraction result, the loop from a saturated start
state runs exactly 13 attempts: the five extraction checks at attempts
0, 3, 6, 9, 12 each find nothing new, and the counter reaches
`max_no_new_data` with no 15th-attempt check ever reached. -/
theorem loop_const_trace (env : ScrapeEnv) (L : List Row)
    (hA : ∀ n, env.extractAt n = L) (R : List Row) (S : List String)
    (hsat : ∀ r ∈ L, row_hash r ∈ S) :
    loopRun env 500 ⟨R, S, 0, 0, false⟩ = ⟨R, S, 13, 5, false⟩ := by
  have hs := step_saturated env L hA R S
  show loopRun env (499 + 1) ⟨R, S, 0, 0, false⟩ = _
  rw [loopRun_succ env 499 _ rfl
      (show (0 : Nat) < max_scroll_attempts by decide)
      (show (0 : Nat) < max_no_new_data by decide), hs 0 0 hsat (by omega)]
  show loopRun env (498 + 1) ⟨R, S, 1, 1, false⟩ = _
  rw [loopRun_succ env 498 _ rfl
      (show (1 : Nat) < max_scroll_attempts by decide)
      (show (1 : Nat) < max_no_new_data by decide), hs 1 1 hsat (by omega)]
  show loopRun env (497 + 1) ⟨R, S, 2, 1, false⟩ = _
  rw [loopRun_succ env 497 _ rfl
      (show (2 : Nat) < max_scroll_attempts by decide)
      (show (1 : Nat) < max_no_new_data by decide), hs 2 1 hsat (by omega)]
  show loopRun env (496 + 1) ⟨R, S, 3, 1, false⟩ = _
  rw [loopRun_succ env 496 _ rfl
      (show (3 : Nat) < max_scroll_attempts by decide)
      (show (1 : Nat) < max_no_new_data by decide), hs 3 1 hsat (by omega)]
  show loopRun env (495 + 1) ⟨R, S, 4, 2, false⟩ = _
  rw [loopRun_succ env 495 _ rfl
      (show (4 : Nat) < max_scroll_attempts by decide)
      (show (2 : Nat) < max_no_new_data by decide), hs 4 2 hsat (by omega)]
  show loopRun env (494 + 1) ⟨R, S, 5, 2, false⟩ = _
  rw [loopRun_succ env 494 _ rfl
      (show (5 : Nat) < max_scroll_attempts by decide)
      (show (2 : Nat) < max_no_new_data by decide), hs 5 2 hsat (by omega)]
  show loopRun env (493 + 1) ⟨R, S, 6, 2, false⟩ = _
  rw [loopRun_succ env 493 _ rfl
      (show (6 : Nat) < max_scroll_attempts by decide)
      (show (2 : Nat) < max_no_new_data by decide), hs 6 2 hsat (by omega)]
  show loopRun env (492 + 1) ⟨R, S, 7, 3, false⟩ = _
  rw [loopRun_succ env 492 _ rfl
      (show (7 : Nat) < max_scroll_attempts by decide)
      (show (3 : Nat) < max_no_new_data by decide), hs 7 3 hsat (by omega)]
  show loopRun env (491 + 1) ⟨R, S, 8, 3, false⟩ = _
  rw [loopRun_succ env 491 _ rfl
      (show (8 : Nat) < max_scroll_attempts by decide)
      (show (3 : Nat) < max_no_new_data by decide), hs 8 3 hsat (by omega)]
  show loopRun env (490 + 1) ⟨R, S, 9, 3, false⟩ = _
  rw [loopRun_succ env 490 _ rfl
      (show (9 : Nat) < max_scroll_attempts by decide)
      (show (3 : Nat) < max_no_new_data by decide), hs 9 3 hsat (by omega)]
  show loopRun env (489 + 1) ⟨R, S, 10, 4, false⟩ = _
  rw [loopRun_succ env 489 _ rfl
      (show (10 : Nat) < max_scroll_attempts by decide)
      (show (4 : Nat) < max_no_new_data by decide), hs 10 4 hsat (by omega)]
  show loopRun env (488 + 1) ⟨R, S, 11, 4, false⟩ = _
  rw [loopRun_succ env 488 _ rfl
      (show (11 : Nat) < max_scroll_attempts by decide)
      (show (4 : Nat) < max_no_new_data by decide), hs 11 4 hsat (by omega)]
  show loopRun env (487 + 1) ⟨R, S, 12, 4, false⟩ = _
  rw [loopRun_succ env 487 _ rfl
      (show (12 : Nat) < max_scroll_attempts by decide)
      (show (4 : Nat) < max_no_new_data by decide), hs 12 4 hsat (by omega)]
  show loopRun env 487 ⟨R, S, 13, 5, false⟩ = _
  exact loopRun_exit env 487 _ (show ¬ (5 : Nat) < max_no_new_data by decide)

/-- With a fixed, non-growing source, `collect_all_products` exits its
loop at attempt 13 with the empty-round counter at the threshold and the
early `break` never taken. -/
theorem collect_const (env : ScrapeEnv) (L : List Row)
    (hI : env.extractInit = L) (hA : ∀ n, env.extractAt n = L) :
    (collectFinal env).scroll_attempts = 13 ∧
    (collectFinal env).no_new_data_count = max_no_new_data ∧
    (collectFinal env).broke = false := by
  have hf := mergeList_fields ⟨[], [], 0, 0, false⟩ L
  have hsat := mergeList_sat ⟨[], [], 0, 0, false⟩ L
  have hB : mergeList ⟨[], [], 0, 0, false⟩ L =
      ⟨(mergeList ⟨[], [], 0, 0, false⟩ L).all_rows,
       (mergeList ⟨[], [], 0, 0, false⟩ L).seen, 0, 0, false⟩ := by
    conv_lhs => rw [show mergeList ⟨[], [], 0, 0, false⟩ L =
      ⟨(mergeList ⟨[], [], 0, 0, false⟩ L).all_rows,
       (mergeList ⟨[], [], 0, 0, false⟩ L).seen,
       (mergeList ⟨[], [], 0, 0, false⟩ L).scroll_attempts,
       (mergeList ⟨[], [], 0, 0, false⟩ L).no_new_data_count,
       (mergeList ⟨[], [], 0, 0, false⟩ L).broke⟩ from rfl]
    rw [hf.1, hf.2.1, hf.2.2]
  rw [hB] at hsat
  have hcf : collectFinal env =
      mergeList (⟨(mergeList ⟨[], [], 0, 0, false⟩ L).all_rows,
        (mergeList ⟨[], [], 0, 0, false⟩ L).seen, 13, 5, false⟩ : CState)
        env.extractFinal := by
    show mergeList (loopRun env max_scroll_attempts
      (mergeList ⟨[], [], 0, 0, false⟩ env.extractInit)) env.extractFinal = _
    rw [hI, hB]
    show mergeList (loopRun env 500 _) _ = _
    rw [loop_const_trace env L hA _ _ hsat]
  have hg := mergeList_fields
    (⟨(mergeList ⟨[], [], 0, 0, false⟩ L).all_rows,
      (mergeList ⟨[], [], 0, 0, false⟩ L).seen, 13, 5, false⟩ : CState)
    env.extractFinal
  refine ⟨?_, ?_, ?_⟩
  · rw [hcf]
    exact hg.1
  · rw [hcf]
    exact hg.2.1
  · rw [hcf]
    exact hg.2.2

theorem stepExtract_sched (env : ScrapeEnv) (s : CState) :
    (stepExtract env s).scroll_attempts = s.scroll_attempts ∧
    (stepExtract env s).broke = s.broke ∧
    ((stepExtract env s).no_new_data_count = 0 ∨
      (s.scroll_attempts % 3 = 0 ∧
        (stepExtract env s).no_new_data_count = s.no_new_data_count + 1) ∨
      (stepExtract env s).no_new_data_count = s.no_new_data_count) := by
  unfold stepExtract
  split
  · split
    · exact ⟨rfl, rfl, Or.inl rfl⟩
    · refine ⟨rfl, rfl, Or.inr (Or.inl ⟨?_, rfl⟩)⟩
      assumption
  · exact ⟨rfl, rfl, Or.inr (Or.inr rfl)⟩

theorem stepComplete_sched (env : ScrapeEnv) (s : CState) :
    (stepComplete env s).scroll_attempts = s.scroll_attempts ∧
    (stepComplete env s).broke = s.broke ∧
    (stepComplete env s = s ∨ s.scroll_attempts % 15 = 0) := by
  unfold stepComplete
  split
  · refine ⟨rfl, rfl, Or.inr ?_⟩
    assumption
  · exact ⟨rfl, rfl, Or.inl rfl⟩

theorem stepBreak_sched (s : CState) :
    (stepBreak s).scroll_attempts = s.scroll_attempts ∧
    (stepBreak s).no_new_data_count = s.no_new_data_count ∧
    ((stepBreak s).broke = s.broke ∨ 50 < s.scroll_attempts) := by
  unfold stepBreak
  split
  · refine ⟨rfl, rfl, Or.inr ?_⟩
    next h => exact h.2
  · exact ⟨rfl, rfl, Or.inl rfl⟩

theorem step_invA (env : ScrapeEnv) (s : CState) (h : InvA s) :
    InvA (step env s) := by
  obtain ⟨e1, e2, e3⟩ := stepExtract_sched env s
  obtain ⟨c1, c2, c3⟩ := stepComplete_sched env (stepIncr (stepExtract env s))
  obtain ⟨b1, b2, b3⟩ := stepBreak_sched (stepComplete env (stepIncr (stepExtract env s)))
  have i1 : (stepIncr (stepExtract env s)).scroll_attempts = s.scroll_attempts + 1 := by
    show (stepExtract env s).scroll_attempts + 1 = _
    rw [e1]
  have hA : (step env s).scroll_attempts = s.scroll_attempts + 1 := by
    show (stepBreak (stepComplete env (stepIncr (stepExtract env s)))).scroll_attempts = _
    rw [b1, c1, i1]
  have hC : (step env s).no_new_data_count =
      (stepComplete env (stepIncr (stepExtract env s))).no_new_data_count := b2
  constructor
  · rw [hA, hC]
    rcases c3 with hc | hc
    · rw [hc]
      have hic : (stepIncr (stepExtract env s)).no_new_data_count =
          (stepExtract env s).no_new_data_count := rfl
      rw [hic]
      rcases h.1 with hI | hI
      · rcases e3 with he | ⟨h3, he⟩ | he <;> rw [he] <;> omega
      · right
        omega
    · rw [i1] at hc
      right
      omega
  · intro hbr
    rw [hA]
    have hsb : (step env s).broke =
        (stepBreak (stepComplete env (stepIncr (stepExtract env s)))).broke := rfl
    rw [hsb] at hbr
    rcases b3 with hb | hb
    · rw [hb, c2] at hbr
      have hib : (stepIncr (stepExtract env s)).broke =
          (stepExtract env s).broke := rfl
      rw [hib, e2] at hbr
      have := h.2 hbr
      omega
    · rw [c1, i1] at hb
      omega

theorem loopRun_invA (env : ScrapeEnv) (f : Nat) (s : CState) (h : InvA s) :
    InvA (loopRun env f s) := by
  induction f generalizing s with
  | zero => exact h
  | succ f ih =>
    unfold loopRun
    split
    · exact h
    · split
      · exact ih (step env s) (step_invA env s h)
      · exact h

/-! Lemmas about header naming and row building in the extractor. -/

theorem rowData_congr (hs1 hs2 : List String)
    (h : ∀ i, hname hs1 i = hname hs2 i) (cells : List String) :
    rowData hs1 cells = rowData hs2 cells := by
  unfold rowData
  have hf : (fun (d : Row) (ic : Nat × String) =>
        dictInsert d (hname hs1 ic.1) (strip ic.2)) =
      (fun d ic => dictInsert d (hname hs2 ic.1) (strip ic.2)) := by
    funext d ic
    rw [h ic.1]
  rw [hf]

theorem hname_nil (i : Nat) : hname [] i = colName (i + 1) := rfl

theorem hname_range (k i : Nat) :
    hname ((List.range k).map (fun j => colName (j + 1))) i = colName (i + 1) := by
  unfold hname
  by_cases h : i < k
  · rw [List.getD_eq_getElem?_getD, List.getElem?_map, List.getElem?_range h]
    rfl
  · rw [List.getD_eq_getElem?_getD, List.getElem?_map,
      List.getElem?_eq_none (by simpa using Nat.le_of_not_lt h)]
    rfl

theorem hname_inferred (rows : List (List String)) (i : Nat) :
    hname (inferHeaders rows) i = colName (i + 1) := by
  unfold inferHeaders
  cases rows.head? with
  | none => exact hname_nil i
  | some fr => exact hname_range fr.length i

theorem hname_overflow (headers : List String) (i : Nat)
    (h : headers.length ≤ i) : hname headers i = colName (i + 1) := by
  unfold hname
  rw [List.getD_eq_getElem?_getD, List.getElem?_eq_none h]
  rfl

/-! Lemmas about dict building within one row. -/

theorem dictLookup_dictInsert (d : Row) (k k' v : String) :
    dictLookup (dictInsert d k' v) k =
      if k' = k then some v else dictLookup d k := by
  induction d with
  | nil =>
    show (if k' = k then some v else dictLookup [] k) = _
    rfl
  | cons p rest ih =>
    show dictLookup (if p.1 = k' then (k', v) :: rest else p :: dictInsert rest k' v) k = _
    by_cases h1 : p.1 = k'
    · rw [if_pos h1]
      show (if k' = k then some v else dictLookup rest k) = _
      by_cases h2 : k' = k
      · rw [if_pos h2, if_pos h2]
      · rw [if_neg h2, if_neg h2]
        show dictLookup rest k = dictLookup (p :: rest) k
        show dictLookup rest k = if p.1 = k then some p.2 else dictLookup rest k
        rw [if_neg (by rw [h1]; exact h2)]
    · rw [if_neg h1]
      show (if p.1 = k then some p.2 else dictLookup (dictInsert rest k' v) k) = _
      by_cases h2 : p.1 = k
      · rw [if_pos h2, if_neg (by rw [← h2]; exact fun e => h1 e.symm)]
        show some p.2 = if p.1 = k then some p.2 else dictLookup rest k
        rw [if_pos h2]
      · rw [if_neg h2, ih]
        by_cases h3 : k' = k
        · rw [if_pos h3, if_pos h3]
        · rw [if_neg h3, if_neg h3]
          show dictLookup rest k = if p.1 = k then some p.2 else dictLookup rest k
          rw [if_neg h2]

theorem find?_append (p : α → Bool) :
    ∀ xs ys : List α, (xs ++ ys).find? p = ((xs.find? p).orElse fun _ => ys.find? p) := by
  intro xs ys
  induction xs with
  | nil => rfl
  | cons x xs ih =>
    show List.find? p (x :: (xs ++ ys)) = _
    rw [List.find?_cons, List.find?_cons]
    cases p x
    · exact ih
    · rfl

theorem dictLookup_fold (f : Nat → String) (k : String) :
    ∀ (l : List (Nat × String)) (d0 : Row),
      dictLookup (l.foldl (fun d ic => dictInsert d (f ic.1) (strip ic.2)) d0) k =
        ((l.reverse.find? (fun ic => f ic.1 == k)).map (fun ic => strip ic.2)).orElse
          (fun _ => dictLookup d0 k) := by
  intro l
  induction l with
  | nil =>
    intro d0
    rfl
  | cons p l ih =>
    intro d0
    show dictLookup (l.foldl _ (dictInsert d0 (f p.1) (strip p.2))) k = _
    rw [ih (dictInsert d0 (f p.1) (strip p.2))]
    rw [List.reverse_cons, find?_append]
    cases hfind : l.reverse.find? (fun ic => f ic.1 == k) with
    | some q => rfl
    | none =>
      show dictLookup (dictInsert d0 (f p.1) (strip p.2)) k =
        (([p].find? (fun ic => f ic.1 == k)).map (fun ic => strip ic.2)).orElse
          (fun _ => dictLookup d0 k)
      rw [dictLookup_dictInsert]
      by_cases h : f p.1 = k
      · rw [if_pos h]
        rw [show [p].find? (fun ic => f ic.1 == k) = some p from by
          rw [List.find?_cons]
          rw [show (f p.1 == k) = true from beq_iff_eq.mpr h]]
        rfl
      · rw [if_neg h]
        rw [show [p].find? (fun ic => f ic.1 == k) = none from by
          rw [List.find?_cons]
          rw [show (f p.1 == k) = false from beq_eq_false_iff_ne.mpr h]
          rfl]
        rfl

/-! The claims. -/

/-- Claim C1: for every finite, non-growing data source (each extraction
pass returns a fixed row set), `collect_all_products` terminates within
`max_scroll_attempts` (500) loop iterations, and terminates via the
empty-round threshold alone (`no_new_data_count` reaching
`max_no_new_data`, with the early break never taken) even when no
completion text signal ever appears. -/
theorem claim1_termination (env : ScrapeEnv) (L : List Row)
    (hI : env.extractInit = L) (hA : ∀ n, env.extractAt n = L)
    (_hT : ∀ n, env.textDone n = false) :
    (collectFinal env).scroll_attempts < max_scroll_attempts ∧
    (collectFinal env).no_new_data_count = max_no_new_data ∧
    (collectFinal env).broke = false := by
  obtain ⟨h1, h2, h3⟩ := collect_const env L hI hA
  refine ⟨?_, h2, h3⟩
  rw [h1]
  decide

/-- Witness for C1 at the concrete one-row fixed source. -/
theorem claim1_witness :
    (collectFinal env0).scroll_attempts < max_scroll_attempts ∧
    (collectFinal env0).no_new_data_count = max_no_new_data ∧
    (collectFinal env0).broke = false :=
  claim1_termination env0 [[("a", "b")]] rfl (fun _ => rfl) (fun _ => rfl)

/-- Claim C2: across every iteration of the collection loop the list of
collected rows only ever grows at its end (so its size is
non-decreasing), a row whose hash is already in `seen` is never appended
again, and the no-duplicate-hash invariant is preserved. -/
theorem claim2_monotone (env : ScrapeEnv) (f : Nat) (s : CState) (h : Inv s) :
    (∃ t, (loopRun env f s).all_rows = s.all_rows ++ t ∧
      ∀ x ∈ t, row_hash x ∉ s.seen) ∧
    s.all_rows.length ≤ (loopRun env f s).all_rows.length ∧
    Inv (loopRun env f s) := by
  obtain ⟨t, ht, hn⟩ := loopRun_growth env f s
  refine ⟨⟨t, ht, hn⟩, ?_, loopRun_inv env f s h⟩
  rw [ht]
  simp

/-- Witness for C2 from the empty start state under `env0`. -/
theorem claim2_witness :
    ([] : List Row).length ≤ (loopRun env0 500 ⟨[], [], 0, 0, false⟩).all_rows.length :=
  (claim2_monotone env0 500 ⟨[], [], 0, 0, false⟩ ⟨by simp, by simp⟩).2.1

/-- Counterexample to claim C3 as stated: under `env1`, at the 15th
attempt the completion check observes the stopped-growing scroll-extent
signal (container present, scroll position 50 positive, extent 100 with
gap below the slack 100), yet `no_new_data_count` is merely incremented
to 1 — not driven to `max_no_new_data` — and the loop keeps running to
attempt 25 instead of exiting at the check. -/
theorem claim3_counterexample :
    (env1.container = true ∧ 0 < env1.scrollTop 15 ∧
      env1.scrollHeight 15 - env1.scrollTop 15 < 100) ∧
    (loopRun env1 15 ⟨[], [], 0, 0, false⟩).no_new_data_count = 1 ∧
    ¬ (loopRun env1 15 ⟨[], [], 0, 0, false⟩).no_new_data_count = max_no_new_data ∧
    (collectFinal env1).scroll_attempts = 25 := by
  decide

theorem stepComplete_text (env : ScrapeEnv) (s : CState)
    (h15 : s.scroll_attempts % 15 = 0)
    (ht : env.textDone s.scroll_attempts = true) :
    max_no_new_data ≤ (stepComplete env s).no_new_data_count := by
  unfold stepComplete
  rw [if_pos h15, ht]
  show max_no_new_data ≤
    (if env.container = true ∧ 0 < env.scrollTop s.scroll_attempts ∧
        env.scrollHeight s.scroll_attempts - env.scrollTop s.scroll_attempts < 100
     then (if true = true then max_no_new_data else s.no_new_data_count) + 1
     else (if true = true then max_no_new_data else s.no_new_data_count))
  rw [if_pos rfl]
  split
  · exact Nat.le_succ _
  · exact Nat.le_refl _

/-- Claim C3 as amended: of the two completion signals checked at every
15th attempt, the completion-text signal does drive `no_new_data_count`
to `max_no_new_data` and forces the loop to exit at that iteration; the
stopped-growing scroll-extent signal, by contrast, only increments the
counter by one (see the counterexample). -/
theorem claim3_amended (env : ScrapeEnv) (s : CState) (f : Nat)
    (hb : s.broke = false)
    (h1 : s.scroll_attempts < max_scroll_attempts)
    (h2 : s.no_new_data_count < max_no_new_data)
    (h15 : (s.scroll_attempts + 1) % 15 = 0)
    (htext : env.textDone (s.scroll_attempts + 1) = true) :
    max_no_new_data ≤ (step env s).no_new_data_count ∧
    loopRun env (f + 1) s = step env s := by
  have i1 : (stepIncr (stepExtract env s)).scroll_attempts = s.scroll_attempts + 1 := by
    show (stepExtract env s).scroll_attempts + 1 = _
    rw [(stepExtract_sched env s).1]
  have hge : max_no_new_data ≤ (step env s).no_new_data_count := by
    have hsc : (step env s).no_new_data_count =
        (stepComplete env (stepIncr (stepExtract env s))).no_new_data_count :=
      (stepBreak_sched _).2.1
    rw [hsc]
    exact stepComplete_text env _ (by rw [i1]; exact h15) (by rw [i1]; exact htext)
  refine ⟨hge, ?_⟩
  rw [loopRun_succ env f s hb h1 h2]
  exact loopRun_exit env f (step env s) (by omega)

/-- Witness for the amended C3 at a concrete state one attempt before a
15th-attempt check whose completion text is visible. -/
theorem claim3_witness :
    max_no_new_data ≤ (step env2 st14).no_new_data_count ∧
    loopRun env2 1 st14 = step env2 st14 :=
  claim3_amended env2 st14 0 rfl (by decide) (by decide) (by decide) (by decide)

/-- Counterexample to claim C4 as stated: under the fixed source `env0`
the collector stops precisely because `no_new_data_count` reached
`max_no_new_data`, yet only 13 scroll attempts have elapsed — far below
the only minimum the code knows (the `scroll_attempts > 50` guard of the
separate early break), so no minimum-attempt guard protects the
threshold exit. -/
theorem claim4_counterexample :
    (collectFinal env0).no_new_data_count = max_no_new_data ∧
    (collectFinal env0).broke = false ∧
    (collectFinal env0).scroll_attempts = 13 ∧
    ¬ 50 < (collectFinal env0).scroll_attempts := by
  decide

/-- Claim C4 as amended: the coded minimum (`scroll_attempts > 50`)
guards only the early break taken at `no_new_data_count >= 2`; the
threshold exit itself is unguarded, and the only lower bound it obeys is
the one implied by the check cadence: at least 13 attempts shown here. -/
theorem claim4_amended (env : ScrapeEnv) :
    (max_no_new_data ≤ (collectFinal env).no_new_data_count →
      13 ≤ (collectFinal env).scroll_attempts) ∧
    ((collectFinal env).broke = true → 51 ≤ (collectFinal env).scroll_attempts) := by
  have hf := mergeList_fields ⟨[], [], 0, 0, false⟩ env.extractInit
  have hInv : InvA (mergeList ⟨[], [], 0, 0, false⟩ env.extractInit) := by
    constructor
    · left
      rw [hf.2.1, hf.1]
      decide
    · intro hbr
      rw [hf.2.2] at hbr
      exact absurd hbr (by decide)
  have hloop := loopRun_invA env max_scroll_attempts
    (mergeList ⟨[], [], 0, 0, false⟩ env.extractInit) hInv
  have hg := mergeList_fields
    (loopRun env max_scroll_attempts (mergeList ⟨[], [], 0, 0, false⟩ env.extractInit))
    env.extractFinal
  have ha : (collectFinal env).scroll_attempts =
      (loopRun env max_scroll_attempts
        (mergeList ⟨[], [], 0, 0, false⟩ env.extractInit)).scroll_attempts := hg.1
  have hc : (collectFinal env).no_new_data_count =
      (loopRun env max_scroll_attempts
        (mergeList ⟨[], [], 0, 0, false⟩ env.extractInit)).no_new_data_count := hg.2.1
  have hbb : (collectFinal env).broke =
      (loopRun env max_scroll_attempts
        (mergeList ⟨[], [], 0, 0, false⟩ env.extractInit)).broke := hg.2.2
  constructor
  · intro h5
    rw [hc] at h5
    have h5' : 5 ≤ (loopRun env max_scroll_attempts
        (mergeList ⟨[], [], 0, 0, false⟩ env.extractInit)).no_new_data_count := h5
    rw [ha]
    rcases hloop.1 with hI | hI <;> omega
  · intro hbr
    rw [hbb] at hbr
    have := hloop.2 hbr
    rw [ha]
    omega

/-- Witness for the amended C4 at the fixed source `env0`. -/
theorem claim4_amended_witness : 13 ≤ (collectFinal env0).scroll_attempts :=
  (claim4_amended env0).1 (by decide)

/-- Claim C5: the dedup key `str(sorted(row.items()))` is invariant
under the insertion order of the pairs: any two rows holding the same
`(column, value)` pairs hash identically. -/
theorem claim5_hash_order_invariant (r1 r2 : Row) (h : r1.Perm r2) :
    row_hash r1 = row_hash r2 := by
  unfold row_hash
  have hp : (List.insertionSort pairLe r1).Perm (List.insertionSort pairLe r2) :=
    ((List.perm_insertionSort pairLe r1).trans h).trans
      (List.perm_insertionSort pairLe r2).symm
  rw [List.eq_of_perm_of_sorted hp (List.sorted_insertionSort pairLe r1)
    (List.sorted_insertionSort pairLe r2)]

/-- Witness for C5 on the two orderings of a two-column row. -/
theorem claim5_witness :
    row_hash [("Name", "Widget"), ("Price", "9.99")] =
      row_hash [("Price", "9.99"), ("Name", "Widget")] :=
  claim5_hash_order_invariant _ _ (by decide)

/-- Claim C6: merging the same row twice — immediately or after any later
extraction pass — is idempotent, and a single merge grows the collected
list by at most one row. -/
theorem claim6_merge_idempotent (s : CState) (r : Row) (rs : List Row) :
    (mergeRow s r).all_rows.length ≤ s.all_rows.length + 1 ∧
    mergeRow (mergeRow s r) r = mergeRow s r ∧
    mergeRow (mergeList (mergeRow s r) rs) r = mergeList (mergeRow s r) rs := by
  refine ⟨?_, ?_, ?_⟩
  · unfold mergeRow
    split
    · simp
    · simp
  · exact mergeRow_eq_self _ r (mergeRow_seen_self s r)
  · exact mergeRow_eq_self _ r
      (mergeList_seen_mono (mergeRow s r) rs (mergeRow_seen_self s r))

/-- Claim C7: on the two-row Name/Price table with a constant page,
the extractor returns exactly the two expected records in order, and the
collector terminates via the empty-round threshold with that exact
duplicate-free output. -/
theorem claim7_scenario :
    extract_table_rows_from_page (some table7) =
      [[("Name", "Widget"), ("Price", "9.99")],
       [("Name", "Gadget"), ("Price", "14.50")]] ∧
    collect_all_products env7 =
      [[("Name", "Widget"), ("Price", "9.99")],
       [("Name", "Gadget"), ("Price", "14.50")]] ∧
    (collectFinal env7).no_new_data_count = max_no_new_data ∧
    (collectFinal env7).scroll_attempts = 13 ∧
    ((collect_all_products env7).map row_hash).Nodup := by
  decide

/-- Claim C8: the extractor returns the empty sequence — never an
error — when no table is present, and zero-cell body rows are skipped:
the output is unchanged when they are removed from the table. -/
theorem claim8_extractor_degrades (t : TableModel) :
    extract_table_rows_from_page none = [] ∧
    extract_table_rows_from_page (some t) =
      extract_table_rows_from_page
        (some ⟨t.headerCells, t.rows.filter (fun cells => !cells.isEmpty)⟩) := by
  refine ⟨rfl, ?_⟩
  have hfil : (t.rows.filter (fun cells => !cells.isEmpty)).filter
      (fun cells => !cells.isEmpty) = t.rows.filter (fun cells => !cells.isEmpty) :=
    List.filter_eq_self.mpr (fun a ha => (List.mem_filter.mp ha).2)
  simp only [extract_table_rows_from_page]
  rw [hfil]
  by_cases he : ((t.headerCells.map strip).filter (fun h => !(h == ""))).isEmpty
  · rw [if_pos he, if_pos he]
    have hrd : rowData (inferHeaders t.rows) =
        rowData (inferHeaders (t.rows.filter (fun cells => !cells.isEmpty))) :=
      funext (rowData_congr _ _ (fun i => (hname_inferred t.rows i).trans
        (hname_inferred (t.rows.filter (fun cells => !cells.isEmpty)) i).symm))
    rw [hrd]
  · rw [if_neg he, if_neg he]

/-- Claim C9: when after submission the URL stays at the base URL, no
success marker shows, and an error marker is visible, the login-result
wait classifies the outcome as failed, and `main` returns before
`navigate_to_product_catalog` ever runs. -/
theorem claim9_login_failure_aborts (m : MainEnv)
    (hlog : m.loggedIn = false) (hfill : m.fillOk = true)
    (hurl : m.login.url 0 = m.base)
    (hsucc : m.login.successVisible 0 = false)
    (herr : m.login.errorVisible 0 = true) :
    wait_for_login_result m.login m.base = false ∧
    Phase.navigation ∉ mainPhases m := by
  have hw : wait_for_login_result m.login m.base = false := by
    show waitLoop m.login m.base (29 + 1) 0 = false
    conv_lhs => rw [waitLoop]
    rw [if_neg (fun hc => hc.1 hurl), hsucc, herr]
    simp
  refine ⟨hw, ?_⟩
  have hp : mainPhases m = [Phase.login] := by
    unfold mainPhases
    rw [hlog, if_neg (by simp), hfill, if_neg (by simp), hw, if_pos rfl]
  rw [hp]
  decide

/-- Witness for C9 on the concrete failed-login environment. -/
theorem claim9_witness :
    wait_for_login_result mainFail.login mainFail.base = false ∧
    Phase.navigation ∉ mainPhases mainFail :=
  claim9_login_failure_aborts mainFail rfl rfl rfl rfl rfl

/-- Claim C10: a cell index past the derived headers still receives the
synthesized positional name; every key of the built row maps to the text
of the last cell bearing that header name (so duplicate header names
collapse to one entry holding the last such text); and every cell index
of a non-empty row has a present entry under its header name — no cell
is dropped for lack of a header. -/
theorem claim10_synthesized_names (headers cells : List String) :
    (∀ i, headers.length ≤ i → hname headers i = colName (i + 1)) ∧
    (∀ k, dictLookup (rowData headers cells) k =
      (cells.enum.reverse.find? (fun ic => hname headers ic.1 == k)).map
        (fun ic => strip ic.2)) ∧
    (∀ i, i < cells.length →
      (dictLookup (rowData headers cells) (hname headers i)).isSome = true) := by
  have hmain : ∀ k, dictLookup (rowData headers cells) k =
      (cells.enum.reverse.find? (fun ic => hname headers ic.1 == k)).map
        (fun ic => strip ic.2) := by
    intro k
    unfold rowData
    rw [dictLookup_fold (hname headers) k cells.enum []]
    cases cells.enum.reverse.find? (fun ic => hname headers ic.1 == k) <;> rfl
  refine ⟨fun i hi => hname_overflow headers i hi, hmain, ?_⟩
  intro i hi
  rw [hmain (hname headers i)]
  have hmem : (i, cells.get ⟨i, hi⟩) ∈ cells.enum.reverse := by
    rw [List.mem_reverse]
    have hg : cells.enum.get? i = some (i, cells.get ⟨i, hi⟩) := by
      rw [List.get?_eq_getElem?, List.getElem?_enum, List.getElem?_eq_getElem hi]
      rfl
    exact List.get?_mem hg
  have hfind : (cells.enum.reverse.find?
      (fun ic => hname headers ic.1 == hname headers i)).isSome :=
    List.find?_isSome.mpr ⟨(i, cells.get ⟨i, hi⟩), hmem, beq_self_eq_true _⟩
  cases hcc : cells.enum.reverse.find?
      (fun ic => hname headers ic.1 == hname headers i) with
  | none =>
    rw [hcc] at hfind
    exact absurd hfind (by simp)
  | some q => rfl

/-- Witness for C10 on a three-cell row with a single explicit header. -/
theorem claim10_witness :
    hname ["Name"] 2 = colName (2 + 1) ∧
    (dictLookup (rowData ["Name"] ["a", "b", "c"]) (hname ["Name"] 2)).isSome = true :=
  ⟨(claim10_synthesized_names ["Name"] ["a", "b", "c"]).1 2 (by decide),
   (claim10_synthesized_names ["Name"] ["a", "b", "c"]).2.2 2 (by decide)⟩

end Scraper
